import Mathlib

/-!
Verification development for the EBM clinical-interface repository.

The development shallowly embeds the counterfactual-recommendation core of
`ebm_app/ml_models.py` over rational numbers:

* `calculate_local_gradient` (sorting, smoothing, clamped insertion index,
  finite differences, fallback on any raised error),
* `find_optimal_target` (current-risk lookup, bounded window search,
  first-occurrence argmin, exception handler),
* the percentile gating branch of `get_global_explanation_html`,
* the ranked-report path of `generate_patient_report`,
* the patient lookups (`get_patient_row`, `get_local_explanation_html`).

Python floats are modelled as `ℚ`; numpy arrays as `List ℚ`.  A raised and
locally caught exception is modelled by `Option`/`Except` plumbing: `none`
at a given program point means "this numpy operation raises here".  The
Gaussian smoother (`scipy.ndimage.gaussian_filter1d`) is an external
library collaborator, so it enters the embedding as an explicit function
parameter `smooth`; the only fact the surrounding code relies on is that it
preserves the length of its input, which appears as a hypothesis `hs`.
-/

/-- The recommendation strings `'decrease' / 'increase' / 'maintain'`
produced by `calculate_local_gradient`. -/
inductive Recommendation where
  | decrease
  | increase
  | maintain
deriving DecidableEq, Repr

/-- Threshold classification of a gradient, `ml_models.py` lines 110-116:
`gradient > 0.001 → 'decrease'`, `gradient < -0.001 → 'increase'`,
otherwise `'maintain'`. -/
def classify (g : ℚ) : Recommendation :=
  if g > 1/1000 then .decrease
  else if g < -(1/1000) then .increase
  else .maintain

/-- Model of `np.searchsorted(a, v)` (side `'left'`) for a *sorted* array
`a`: the first insertion index, i.e. the number of elements strictly below
`v`.  Every call site in the source passes a sorted array. -/
def countLt (l : List ℚ) (v : ℚ) : Nat :=
  l.countP (fun a => decide (a < v))

/-- Ascending sort of a plain array, modelling `np.sort`. -/
def sort_list (l : List ℚ) : List ℚ :=
  List.insertionSort (fun a b : ℚ => a ≤ b) l

/-- Ordering of curve points by x-coordinate, used to model
`np.argsort(x_vals)` followed by indexing both arrays with the result. -/
def pair_le (p q : ℚ × ℚ) : Prop := p.1 ≤ q.1

instance : DecidableRel pair_le := fun p q => inferInstanceAs (Decidable (p.1 ≤ q.1))

instance : IsTotal (ℚ × ℚ) pair_le := ⟨fun p q => le_total p.1 q.1⟩

instance : IsTrans (ℚ × ℚ) pair_le := ⟨fun _ _ _ h h' => le_trans h h'⟩

/-- Sorting the zipped curve by x, modelling `sorted_indices = np.argsort(x_vals)`
applied to both `x_vals` and `y_vals` (`ml_models.py` lines 76-78). -/
def sort_pairs (l : List (ℚ × ℚ)) : List (ℚ × ℚ) :=
  List.insertionSort pair_le l

/-- The sorted x-array `x_sorted` of `calculate_local_gradient`. -/
def sorted_x (x y : List ℚ) : List ℚ :=
  (sort_pairs (x.zip y)).map Prod.fst

/-- The reordered y-array `y_sorted` of `calculate_local_gradient`, after
the smoother: `y_smooth = gaussian_filter1d(y_sorted, sigma)`. -/
def smoothed_y (smooth : List ℚ → List ℚ) (x y : List ℚ) : List ℚ :=
  smooth ((sort_pairs (x.zip y)).map Prod.snd)

/-- The clamped insertion index of `calculate_local_gradient`
(`ml_models.py` lines 84-90): `idx = np.searchsorted(x_sorted, patient_value)`,
then `if idx == 0: idx = 1` and `elif idx >= len(x_sorted): idx = len - 1`. -/
def grad_idx (xs : List ℚ) (pv : ℚ) : Nat :=
  let i0 := countLt xs pv
  if i0 = 0 then 1
  else if xs.length ≤ i0 then xs.length - 1
  else i0

/-- The clamped index used by `find_optimal_target` to read `current_risk`
(`ml_models.py` lines 144-146 and 150-152): `current_idx = np.searchsorted(
x_sorted, patient_value)`, then only `if current_idx >= len(y_smooth):
current_idx = len(y_smooth) - 1`.  Note there is no clamp at 0 here. -/
def current_idx (xs : List ℚ) (pv : ℚ) (m : Nat) : Nat :=
  let i := countLt xs pv
  if m ≤ i then m - 1 else i

/-- Guarded quotient `dy / dx if dx != 0 else 0` (`ml_models.py` lines 97,
102, 107). -/
def diffQ (dx dy : ℚ) : ℚ :=
  if dx = 0 then 0 else dy / dx

/-- The finite-difference part of `calculate_local_gradient`
(`ml_models.py` lines 84-107) on the sorted x-array and the smoothed
y-array.  `none` models an out-of-bounds scalar access raising
`IndexError` (this is what happens for arrays of length < 2). -/
def grad_core (xs ysm : List ℚ) (pv : ℚ) : Option ℚ :=
    let idx := grad_idx xs pv
    if 0 < idx ∧ idx < xs.length - 1 then do
      -- central difference
      let x1 ← xs.get? (idx + 1)
      let x0 ← xs.get? (idx - 1)
      let y1 ← ysm.get? (idx + 1)
      let y0 ← ysm.get? (idx - 1)
      pure (diffQ (x1 - x0) (y1 - y0))
    else if idx = 0 then do
      -- forward difference (dead after the clamp, kept as in the source)
      let x1 ← xs.get? 1
      let x0 ← xs.get? 0
      let y1 ← ysm.get? 1
      let y0 ← ysm.get? 0
      pure (diffQ (x1 - x0) (y1 - y0))
    else do
      -- backward difference
      let x1 ← xs.get? idx
      let x0 ← xs.get? (idx - 1)
      let y1 ← ysm.get? idx
      let y0 ← ysm.get? (idx - 1)
      pure (diffQ (x1 - x0) (y1 - y0))

/-- The `try:` body of `calculate_local_gradient` applied to the sorted and
smoothed arrays; the fancy-indexing guard `x.length ≤ y.length` models that
`y_vals[sorted_indices]` raises when `y` is shorter than `x` (the argsort
indices then reach past the end of `y`). -/
def grad_body (smooth : List ℚ → List ℚ) (x y : List ℚ) (pv : ℚ) : Option ℚ :=
  if x.length ≤ y.length then grad_core (sorted_x x y) (smoothed_y smooth x y) pv
  else none

/-- Return value of `calculate_local_gradient`:
`(gradient, recommendation, y_smooth, x_sorted)`. -/
structure GradResult where
  gradient : ℚ
  recommendation : Recommendation
  y_smooth : List ℚ
  x_sorted : List ℚ
deriving DecidableEq, Repr

/-- `calculate_local_gradient` (`ml_models.py` lines 54-122): on success the
classified gradient together with the smoothed, sorted curve; on any caught
exception the fallback `(0, 'maintain', y_values, x_values)` with the
*original* arrays (line 122). -/
def calculate_local_gradient (smooth : List ℚ → List ℚ) (x y : List ℚ)
    (pv : ℚ) : GradResult :=
  match grad_body smooth x y pv with
  | some g => ⟨g, classify g, smoothed_y smooth x y, sorted_x x y⟩
  | none => ⟨0, .maintain, y, x⟩

/-- Model of `np.min` on a nonempty array. -/
def minQ : List ℚ → ℚ
  | [] => 0
  | a :: t => t.foldl min a

/-- Model of `np.max` on a nonempty array. -/
def maxQ : List ℚ → ℚ
  | [] => 0
  | a :: t => t.foldl max a

/-- `np.min`, with `none` modelling the `ValueError` raised on an empty
array. -/
def minQ? : List ℚ → Option ℚ
  | [] => none
  | a :: t => some (t.foldl min a)

/-- `np.max`, with `none` modelling the `ValueError` raised on an empty
array. -/
def maxQ? : List ℚ → Option ℚ
  | [] => none
  | a :: t => some (t.foldl max a)

/-- Model of `np.argmin`: the first index attaining the minimum. -/
def argmin_idx : List ℚ → Nat
  | [] => 0
  | [_] => 0
  | a :: b :: t =>
    let j := argmin_idx (b :: t)
    if a ≤ (b :: t).getD j 0 then 0 else j + 1

/-- The lower end of the `'decrease'` search window
(`ml_models.py` line 162): `max(np.min(x_sorted), patient_value - search_distance)`. -/
def search_lo (xs : List ℚ) (pv sr : ℚ) : ℚ :=
  max (minQ xs) (pv - (maxQ xs - minQ xs) * sr)

/-- The upper end of the `'increase'` search window
(`ml_models.py` line 168): `min(np.max(x_sorted), patient_value + search_distance)`. -/
def search_hi (xs : List ℚ) (pv sr : ℚ) : ℚ :=
  min (maxQ xs) (pv + (maxQ xs - minQ xs) * sr)

/-- The boolean-mask filter `(x_sorted >= lo) & (x_sorted <= hi)` applied to
the zipped curve (`ml_models.py` lines 164-173). -/
def window_pairs (xs ysm : List ℚ) (lo hi : ℚ) : List (ℚ × ℚ) :=
  (xs.zip ysm).filter (fun p => decide (lo ≤ p.1) && decide (p.1 ≤ hi))

/-- The `except:` handler of `find_optimal_target` (`ml_models.py` lines
189-194): re-reads `y_smooth[current_idx]` and returns
`(patient_value, y_smooth[current_idx], 0.0)`.  `none` models the handler
itself raising (empty `y_smooth`), which propagates to the caller. -/
def fot_handler (xs ysm : List ℚ) (pv : ℚ) : Option (ℚ × ℚ × ℚ) := do
  let r ← ysm.get? (current_idx xs pv ysm.length)
  pure (pv, r, 0)

/-- The `try:` body of `find_optimal_target` (`ml_models.py` lines 141-187).
`none` models a numpy exception: an out-of-range `y_smooth` access, `np.min`
or `np.max` on an empty array, or the boolean mask being applied to a
`y_smooth` whose length differs from `x_sorted`'s. -/
def fot_body (xs ysm : List ℚ) (pv : ℚ) (rc : Recommendation) (sr : ℚ) :
    Option (ℚ × ℚ × ℚ) :=
  match rc with
  | .maintain => do
    let r ← ysm.get? (current_idx xs pv ysm.length)
    pure (pv, r, 0)
  | .decrease => do
    -- search to the left: [max(min, pv - dist), pv]
    let cur ← ysm.get? (current_idx xs pv ysm.length)
    let xmin ← minQ? xs
    let xmax ← maxQ? xs
    if xs.length = ysm.length then
      match window_pairs xs ysm (max xmin (pv - (xmax - xmin) * sr)) pv with
      | [] => pure (pv, cur, 0)
      | p :: ps =>
        let tp := (p :: ps).getD (argmin_idx ((p :: ps).map Prod.snd)) (0, 0)
        pure (tp.1, tp.2, cur - tp.2)
    else none
  | .increase => do
    -- search to the right: [pv, min(max, pv + dist)]
    let cur ← ysm.get? (current_idx xs pv ysm.length)
    let xmin ← minQ? xs
    let xmax ← maxQ? xs
    if xs.length = ysm.length then
      match window_pairs xs ysm pv (min xmax (pv + (xmax - xmin) * sr)) with
      | [] => pure (pv, cur, 0)
      | p :: ps =>
        let tp := (p :: ps).getD (argmin_idx ((p :: ps).map Prod.snd)) (0, 0)
        pure (tp.1, tp.2, cur - tp.2)
    else none

/-- `find_optimal_target` (`ml_models.py` lines 125-194): the `try:` body,
falling back to the `except:` handler when the body raises. -/
def find_optimal_target (xs ysm : List ℚ) (pv : ℚ) (rc : Recommendation)
    (sr : ℚ) : Option (ℚ × ℚ × ℚ) :=
  match fot_body xs ysm pv rc sr with
  | some r => some r
  | none => fot_handler xs ysm pv

/-- Model of `np.percentile(a, q)` with the default linear-interpolation
method: virtual position `q/100 * (n-1)` interpolated between the two
nearest order statistics. -/
def np_percentile (l : List ℚ) (q : ℚ) : ℚ :=
  let s := sort_list l
  let n := s.length
  if n = 0 then 0
  else
    let pos : ℚ := q * ((n : ℚ) - 1) / 100
    let i : Nat := (⌊pos⌋).toNat
    let lo := min i (n - 1)
    let hi := min (i + 1) (n - 1)
    let fr : ℚ := pos - (i : ℚ)
    s.getD lo 0 + fr * (s.getD hi 0 - s.getD lo 0)

/-- Possible outcomes of the patient-marking branch of
`get_global_explanation_html` (`ml_models.py` lines 229-294), abstracting
the plotly rendering into a data type.  `errorPage` models the outer
`except:` returning an error page, `outOfRange` the advisory branch (lines
245-286: marker line, caution text, *no* target value and *no* risk
reduction), and `advice` the in-range branch (lines 287-390: gradient,
recommendation, patient point, target point and risk reduction). -/
inductive GlobalOutcome where
  | errorPage
  | outOfRange (patientValue patientY : ℚ)
  | advice (gradient : ℚ) (recommendation : Recommendation)
      (patientY targetValue targetRisk riskReduction : ℚ)
deriving DecidableEq, Repr

/-- The gating logic of `get_global_explanation_html` for one feature trace
`(x, y)` and one patient value `pv` (`ml_models.py` lines 229-294):
percentile bounds of the trace x-samples, the inclusive in-range test
`x_lower_bound <= patient_value <= x_upper_bound`, and the two branches.
In both branches `patient_y` is read at
`np.searchsorted(np.sort(x_vals), patient_value)` clamped only at the top
against `len(y_smooth)` (lines 254-257 and 334-337). -/
def global_explanation_outcome (smooth : List ℚ → List ℚ) (x y : List ℚ)
    (pv lowerP upperP : ℚ) : GlobalOutcome :=
  let lb := np_percentile x lowerP
  let ub := np_percentile x upperP
  if lb ≤ pv ∧ pv ≤ ub then
    let g := calculate_local_gradient smooth x y pv
    match find_optimal_target g.x_sorted g.y_smooth pv g.recommendation (3/10) with
    | none => .errorPage
    | some (tv, tr, rr) =>
      match g.y_smooth.get? (current_idx (sort_list x) pv g.y_smooth.length) with
      | none => .errorPage
      | some py => .advice g.gradient g.recommendation py tv tr rr
  else
    let g := calculate_local_gradient smooth x y pv
    match g.y_smooth.get? (current_idx (sort_list x) pv g.y_smooth.length) with
    | none => .errorPage
    | some py => .outOfRange pv py

/-- One entry of a local explanation: feature name, contribution score and
raw value, as produced by the model collaborator's `explain_local`. -/
structure FeatureEntry where
  name : String
  score : ℚ
  value : ℚ
deriving DecidableEq, Repr

/-- Substring test on character lists, modelling Python's `in` on strings. -/
def contains_sub (pat : List Char) : List Char → Bool
  | [] => pat.isEmpty
  | c :: t => pat.isPrefixOf (c :: t) || contains_sub pat t

/-- Python `'intercept' in name.lower()` (`ml_models.py` lines 557 and 719). -/
def has_intercept (s : String) : Bool :=
  contains_sub ("intercept".toList) (s.toList.map Char.toLower)

/-- Dropping the intercept entries (`ml_models.py` lines 553-557, 718-725). -/
def remove_intercept (l : List FeatureEntry) : List FeatureEntry :=
  l.filter (fun f => ! has_intercept f.name)

/-- Descending order on the absolute score, the key of
`features_data.sort(key=lambda x: abs(x['score']), reverse=True)`. -/
def abs_desc (a b : FeatureEntry) : Prop := |b.score| ≤ |a.score|

instance : DecidableRel abs_desc := fun a b => inferInstanceAs (Decidable (|b.score| ≤ |a.score|))

instance : IsTotal FeatureEntry abs_desc := ⟨fun a b => le_total |b.score| |a.score|⟩

instance : IsTrans FeatureEntry abs_desc := ⟨fun _ _ _ h h' => le_trans h' h⟩

/-- The stable descending-|score| sort of the report and of the local
explanation page (`ml_models.py` lines 569 and 728). -/
def sort_by_abs (l : List FeatureEntry) : List FeatureEntry :=
  List.insertionSort abs_desc l

/-- `risk_features = [f for f in features_data if f["is_risk"]][:3]`
(`ml_models.py` line 733), where `is_risk` is `score > 0` (line 724) and
`features_data` is already intercept-free and |score|-sorted. -/
def risk_features (l : List FeatureEntry) : List FeatureEntry :=
  ((sort_by_abs (remove_intercept l)).filter (fun f => decide (0 < f.score))).take 3

/-- `sum(abs(f["score"]) for f in risk_features)` (`ml_models.py` line 734). -/
def sum_abs (l : List FeatureEntry) : ℚ :=
  l.foldl (fun acc f => acc + |f.score|) 0

/-- `total_effect = sum(...) or 1.0` (`ml_models.py` line 734): Python's
`or` replaces a zero (falsy) sum by `1.0`. -/
def total_effect (l : List FeatureEntry) : ℚ :=
  if sum_abs l = 0 then 1 else sum_abs l

/-- Round-half-to-even on integers, the semantics of Python's `round`. -/
def round_half_even (q : ℚ) : ℤ :=
  let f := ⌊q⌋
  let r := q - (f : ℚ)
  if r < 1/2 then f
  else if 1/2 < r then f + 1
  else if f % 2 = 0 then f else f + 1

/-- Python `round(q, d)`. -/
def py_round (q : ℚ) (d : Nat) : ℚ :=
  (round_half_even (q * 10 ^ d) : ℚ) / 10 ^ d

/-- The `top_risk_features` list built by `generate_patient_report`
(`ml_models.py` lines 735-766): for each selected risk feature the tuple
`(feature, value, model_effect, contribution_ratio, contribution_percent)`
with `contribution_ratio = round(abs(score) / total_effect, 3)` and
`contribution_percent = round(contribution_ratio_raw * 100, 1)`. -/
def top_risk_features (l : List FeatureEntry) : List (String × ℚ × ℚ × ℚ × ℚ) :=
  let rf := risk_features l
  rf.map (fun f =>
    (f.name, f.value, f.score,
     py_round (|f.score| / total_effect rf) 3,
     py_round (|f.score| / total_effect rf * 100) 1))

/-- One row of the patient data store: string-normalised ID, the record
timestamp used for "most recent record wins", and the feature values. -/
structure PatientRow where
  pid : String
  recTime : ℚ
  feats : List (String × ℚ)
deriving DecidableEq, Repr

/-- The tabular patient store (`self.data`), together with whether the
timestamp column `紀錄時間` is present. -/
structure DataStore where
  rows : List PatientRow
  hasRecTime : Bool
deriving DecidableEq, Repr

/-- Descending order on the record time, the key of
`rows.sort_values("紀錄時間", ascending=False)`. -/
def rec_time_desc (a b : PatientRow) : Prop := b.recTime ≤ a.recTime

instance : DecidableRel rec_time_desc := fun a b => inferInstanceAs (Decidable (b.recTime ≤ a.recTime))

/-- `get_patient_row` (`ml_models.py` lines 38-51): filter the store by the
string-normalised ID; if nothing matches **raise** `ValueError` (modelled
by `Except.error`); otherwise, when the timestamp column exists, sort the
matches by it descending and return the first row. -/
def get_patient_row (d : DataStore) (pid : String) : Except String PatientRow :=
  match d.rows.filter (fun r => r.pid == pid) with
  | [] => .error ("patient ID not found: " ++ pid)
  | r :: rs =>
    let rows := if d.hasRecTime
      then List.insertionSort rec_time_desc (r :: rs)
      else r :: rs
    .ok (rows.headD r)

/-- The transient current-patient cursor (`self.current_patient_id`,
`self.current_patient_values`, `ml_models.py` lines 31-32). -/
structure CursorState where
  currentPatientId : Option String
  currentPatientValues : List (String × ℚ)
deriving DecidableEq, Repr

/-- Outcome of `get_local_explanation_html` (`ml_models.py` lines 518-680),
abstracting the HTML: a structured not-found page or a bar-chart page with
the filtered, sorted entries. -/
inductive LocalExplResult where
  | notFound
  | page (entries : List FeatureEntry)
deriving DecidableEq, Repr

/-- The `display_mode` filter of the local explanation (`ml_models.py`
lines 560-567). -/
def display_filter (mode : String) (l : List FeatureEntry) : List FeatureEntry :=
  if mode = "positive" then l.filter (fun f => decide (0 < f.score))
  else if mode = "negative" then l.filter (fun f => decide (f.score < 0))
  else l

/-- `get_local_explanation_html` (`ml_models.py` lines 518-680): on an
unknown ID return the not-found page and leave the cursor untouched;
otherwise take the first matching row, set the cursor (lines 542-543) and
render the intercept-free, mode-filtered, |score|-sorted entries.  The
model collaborator's `explain_local` is a function parameter. -/
def get_local_explanation (d : DataStore)
    (explain_local : PatientRow → List FeatureEntry) (st : CursorState)
    (pid : String) (mode : String) : LocalExplResult × CursorState :=
  match d.rows.filter (fun r => r.pid == pid) with
  | [] => (.notFound, st)
  | r :: _ =>
    (.page (sort_by_abs (display_filter mode (remove_intercept (explain_local r)))),
     ⟨some pid, r.feats⟩)

/-- Outcome of `generate_patient_report` (`ml_models.py` lines 685-791):
either the structured `{"error": ...}` dictionary or the report payload. -/
inductive ReportResult where
  | error (msg : String)
  | report (top : List (String × ℚ × ℚ × ℚ × ℚ))
deriving DecidableEq, Repr

/-- `generate_patient_report` (`ml_models.py` lines 697-766), restricted to
the lookup and the ranked `top_risk_features` payload: an unknown ID gives
the structured error dictionary; otherwise the first matching row is
explained and ranked. -/
def generate_patient_report (d : DataStore)
    (explain_local : PatientRow → List FeatureEntry) (pid : String) :
    ReportResult :=
  match d.rows.filter (fun r => r.pid == pid) with
  | [] => .error ("patient not found: " ++ pid)
  | r :: _ => .report (top_risk_features (explain_local r))

/-- One run of the gradient-and-target pipeline as invoked by
`get_global_explanation_html` (`ml_models.py` lines 288-294), together with
the cursor state: neither `calculate_local_gradient` nor
`find_optimal_target` reads or writes `self`, so the state is passed
through unchanged. -/
def pipeline_step (smooth : List ℚ → List ℚ) (st : CursorState)
    (x y : List ℚ) (pv : ℚ) :
    (GradResult × Option (ℚ × ℚ × ℚ)) × CursorState :=
  let g := calculate_local_gradient smooth x y pv
  ((g, find_optimal_target g.x_sorted g.y_smooth pv g.recommendation (3/10)), st)

/-- Specification-side gradient formula, written from the spec's words
(§4.2 of the spec / claim C3) rather than from the code: insertion index,
clamp `0 → 1` and `≥ length → length - 1`, then central difference for
`0 < idx < length - 1`, forward difference for `idx = 0`, backward
difference for `idx = length - 1`, with gradient 0 whenever the chosen
denominator is exactly 0.  To be compared with `calculate_local_gradient`. -/
def spec_gradient (xs ysm : List ℚ) (pv : ℚ) : ℚ :=
  let n := xs.length
  let idx := grad_idx xs pv
  if 0 < idx ∧ idx < n - 1 then
    diffQ (xs.getD (idx + 1) 0 - xs.getD (idx - 1) 0)
      (ysm.getD (idx + 1) 0 - ysm.getD (idx - 1) 0)
  else if idx = 0 then
    diffQ (xs.getD 1 0 - xs.getD 0 0) (ysm.getD 1 0 - ysm.getD 0 0)
  else
    diffQ (xs.getD idx 0 - xs.getD (idx - 1) 0)
      (ysm.getD idx 0 - ysm.getD (idx - 1) 0)

section Lemmas

lemma get?_eq_some_getD {α : Type} (l : List α) (n : Nat) (d : α)
    (h : n < l.length) : l.get? n = some (l.getD n d) := by
  rw [List.get?_eq_getElem?, List.getElem?_eq_getElem h, List.getD_eq_getElem l d h]

lemma current_idx_lt (xs : List ℚ) (pv : ℚ) (m : Nat) (hm : 0 < m) :
    current_idx xs pv m < m := by
  unfold current_idx
  dsimp only
  split <;> omega

lemma minQ?_eq (l : List ℚ) (h : l ≠ []) : minQ? l = some (minQ l) := by
  cases l with
  | nil => simp at h
  | cons a t => rfl

lemma maxQ?_eq (l : List ℚ) (h : l ≠ []) : maxQ? l = some (maxQ l) := by
  cases l with
  | nil => simp at h
  | cons a t => rfl

lemma foldl_min_le_init (t : List ℚ) : ∀ a : ℚ, t.foldl min a ≤ a := by
  induction t with
  | nil => intro a; simp
  | cons b t ih =>
    intro a
    calc (b :: t).foldl min a = t.foldl min (min a b) := by simp [List.foldl]
    _ ≤ min a b := ih (min a b)
    _ ≤ a := min_le_left _ _

lemma foldl_min_le_mem (t : List ℚ) : ∀ (a x : ℚ), x ∈ t → t.foldl min a ≤ x := by
  induction t with
  | nil => intro a x hx; simp at hx
  | cons b t ih =>
    intro a x hx
    rcases List.mem_cons.mp hx with h | h
    · subst h
      calc (x :: t).foldl min a = t.foldl min (min a x) := by simp [List.foldl]
      _ ≤ min a x := foldl_min_le_init t (min a x)
      _ ≤ x := min_le_right _ _
    · exact (by simp [List.foldl] : (b :: t).foldl min a = t.foldl min (min a b)) ▸ ih (min a b) x h

lemma init_le_foldl_max (t : List ℚ) : ∀ a : ℚ, a ≤ t.foldl max a := by
  induction t with
  | nil => intro a; simp
  | cons b t ih =>
    intro a
    calc a ≤ max a b := le_max_left _ _
    _ ≤ t.foldl max (max a b) := ih (max a b)
    _ = (b :: t).foldl max a := by simp [List.foldl]

lemma mem_le_foldl_max (t : List ℚ) : ∀ (a x : ℚ), x ∈ t → x ≤ t.foldl max a := by
  induction t with
  | nil => intro a x hx; simp at hx
  | cons b t ih =>
    intro a x hx
    rcases List.mem_cons.mp hx with h | h
    · subst h
      calc x ≤ max a x := le_max_right _ _
      _ ≤ t.foldl max (max a x) := init_le_foldl_max t (max a x)
      _ = (x :: t).foldl max a := by simp [List.foldl]
    · exact (by simp [List.foldl] : (b :: t).foldl max a = t.foldl max (max a b)) ▸ ih (max a b) x h

lemma minQ_le_of_mem {l : List ℚ} {x : ℚ} (hx : x ∈ l) : minQ l ≤ x := by
  cases l with
  | nil => simp at hx
  | cons a t =>
    rcases List.mem_cons.mp hx with h | h
    · subst h; exact foldl_min_le_init t x
    · exact foldl_min_le_mem t a x h

lemma le_maxQ_of_mem {l : List ℚ} {x : ℚ} (hx : x ∈ l) : x ≤ maxQ l := by
  cases l with
  | nil => simp at hx
  | cons a t =>
    rcases List.mem_cons.mp hx with h | h
    · subst h; exact init_le_foldl_max t x
    · exact mem_le_foldl_max t a x h

lemma argmin_idx_lt (l : List ℚ) (h : l ≠ []) : argmin_idx l < l.length := by
  induction l with
  | nil => simp at h
  | cons a t ih =>
    cases t with
    | nil => simp [argmin_idx]
    | cons b u =>
      have hbu : b :: u ≠ [] := by simp
      have := ih hbu
      simp only [argmin_idx]
      split
      · simp
      · simpa using Nat.succ_lt_succ this

lemma argmin_idx_le (l : List ℚ) (i : Nat) (hi : i < l.length) :
    l.getD (argmin_idx l) 0 ≤ l.getD i 0 := by
  induction l generalizing i with
  | nil => simp at hi
  | cons a t ih =>
    cases t with
    | nil =>
      cases i with
      | zero => simp [argmin_idx]
      | succ i' => simp at hi
    | cons b u =>
      simp only [argmin_idx]
      by_cases h : a ≤ (b :: u).getD (argmin_idx (b :: u)) 0
      · rw [if_pos h]
        cases i with
        | zero => simp
        | succ i' =>
          have hi' : i' < (b :: u).length := by simpa using hi
          calc (a :: b :: u).getD 0 0 = a := rfl
          _ ≤ (b :: u).getD (argmin_idx (b :: u)) 0 := h
          _ ≤ (b :: u).getD i' 0 := ih i' hi'
          _ = (a :: b :: u).getD (i' + 1) 0 := rfl
      · rw [if_neg h]
        have hlt : (b :: u).getD (argmin_idx (b :: u)) 0 < a := lt_of_not_le h
        cases i with
        | zero =>
          calc (a :: b :: u).getD (argmin_idx (b :: u) + 1) 0
              = (b :: u).getD (argmin_idx (b :: u)) 0 := rfl
          _ ≤ a := le_of_lt hlt
          _ = (a :: b :: u).getD 0 0 := rfl
        | succ i' =>
          have hi' : i' < (b :: u).length := by simpa using hi
          exact ih i' hi'

lemma argmin_idx_first (l : List ℚ) (j : Nat) (hj : j < argmin_idx l) :
    l.getD (argmin_idx l) 0 < l.getD j 0 := by
  induction l generalizing j with
  | nil => simp [argmin_idx] at hj
  | cons a t ih =>
    cases t with
    | nil => simp [argmin_idx] at hj
    | cons b u =>
      simp only [argmin_idx] at hj ⊢
      by_cases h : a ≤ (b :: u).getD (argmin_idx (b :: u)) 0
      · rw [if_pos h] at hj
        omega
      · rw [if_neg h] at hj ⊢
        have hlt : (b :: u).getD (argmin_idx (b :: u)) 0 < a := lt_of_not_le h
        cases j with
        | zero => exact hlt
        | succ j' => exact ih j' (by omega)

lemma getD_map_snd (l : List (ℚ × ℚ)) (k : Nat) (hk : k < l.length) :
    (l.map Prod.snd).getD k 0 = (l.getD k (0, 0)).2 := by
  have hk' : k < (l.map Prod.snd).length := by simpa using hk
  rw [List.getD_eq_getElem _ _ hk', List.getD_eq_getElem _ _ hk]
  simp

lemma getD_mem {α : Type} (l : List α) (k : Nat) (d : α) (hk : k < l.length) :
    l.getD k d ∈ l := by
  rw [List.getD_eq_getElem l d hk]
  exact List.getElem_mem hk

lemma sort_pairs_length (l : List (ℚ × ℚ)) : (sort_pairs l).length = l.length :=
  (List.perm_insertionSort pair_le l).length_eq

lemma sorted_x_length (x y : List ℚ) :
    (sorted_x x y).length = min x.length y.length := by
  simp [sorted_x, sort_pairs_length]

lemma smoothed_y_length (smooth : List ℚ → List ℚ)
    (hs : ∀ l, (smooth l).length = l.length) (x y : List ℚ) :
    (smoothed_y smooth x y).length = min x.length y.length := by
  simp [smoothed_y, hs, sort_pairs_length]

lemma grad_idx_bounds (xs : List ℚ) (pv : ℚ) (h2 : 2 ≤ xs.length) :
    1 ≤ grad_idx xs pv ∧ grad_idx xs pv ≤ xs.length - 1 := by
  unfold grad_idx
  dsimp only
  have := List.countP_le_length (fun a => decide (a < pv)) (l := xs)
  unfold countLt
  split
  · omega
  · split <;> omega

end Lemmas

section CoreLemmas

lemma grad_core_eq_spec (xs ysm : List ℚ) (pv : ℚ) (h2 : 2 ≤ xs.length)
    (hysm : ysm.length = xs.length) :
    grad_core xs ysm pv = some (spec_gradient xs ysm pv) := by
  have hb := grad_idx_bounds xs pv h2
  unfold grad_core spec_gradient
  dsimp only
  by_cases hmid : 0 < grad_idx xs pv ∧ grad_idx xs pv < xs.length - 1
  · rw [if_pos hmid, if_pos hmid,
      get?_eq_some_getD xs (grad_idx xs pv + 1) 0 (by omega),
      get?_eq_some_getD xs (grad_idx xs pv - 1) 0 (by omega),
      get?_eq_some_getD ysm (grad_idx xs pv + 1) 0 (by omega),
      get?_eq_some_getD ysm (grad_idx xs pv - 1) 0 (by omega)]
    simp
  · rw [if_neg hmid, if_neg hmid]
    have hne : ¬ grad_idx xs pv = 0 := by omega
    rw [if_neg hne, if_neg hne,
      get?_eq_some_getD xs (grad_idx xs pv) 0 (by omega),
      get?_eq_some_getD xs (grad_idx xs pv - 1) 0 (by omega),
      get?_eq_some_getD ysm (grad_idx xs pv) 0 (by omega),
      get?_eq_some_getD ysm (grad_idx xs pv - 1) 0 (by omega)]
    simp

lemma calculate_eq_of_wellformed (smooth : List ℚ → List ℚ)
    (hs : ∀ l, (smooth l).length = l.length) (x y : List ℚ) (pv : ℚ)
    (hlen : x.length = y.length) (h2 : 2 ≤ x.length) :
    calculate_local_gradient smooth x y pv =
      ⟨spec_gradient (sorted_x x y) (smoothed_y smooth x y) pv,
       classify (spec_gradient (sorted_x x y) (smoothed_y smooth x y) pv),
       smoothed_y smooth x y, sorted_x x y⟩ := by
  have hxs : (sorted_x x y).length = x.length := by
    rw [sorted_x_length]; omega
  have hysm : (smoothed_y smooth x y).length = x.length := by
    rw [smoothed_y_length smooth hs]; omega
  unfold calculate_local_gradient grad_body
  rw [if_pos (le_of_eq hlen),
    grad_core_eq_spec (sorted_x x y) (smoothed_y smooth x y) pv (by omega)
      (by omega)]

lemma calc_y_smooth_length (smooth : List ℚ → List ℚ)
    (hs : ∀ l, (smooth l).length = l.length) (x y : List ℚ) (pv : ℚ)
    (hlen : x.length = y.length) :
    (calculate_local_gradient smooth x y pv).y_smooth.length = x.length := by
  unfold calculate_local_gradient
  cases h : grad_body smooth x y pv with
  | some g =>
    simp only
    rw [smoothed_y_length smooth hs]; omega
  | none => simp only; omega

lemma calc_x_sorted_length (smooth : List ℚ → List ℚ) (x y : List ℚ) (pv : ℚ)
    (hlen : x.length = y.length) :
    (calculate_local_gradient smooth x y pv).x_sorted.length = x.length := by
  unfold calculate_local_gradient
  cases h : grad_body smooth x y pv with
  | some g =>
    simp only
    rw [sorted_x_length]; omega
  | none => simp only

end CoreLemmas

section FotLemmas

lemma fot_maintain (xs ysm : List ℚ) (pv sr : ℚ) (hm : 0 < ysm.length) :
    find_optimal_target xs ysm pv .maintain sr
      = some (pv, ysm.getD (current_idx xs pv ysm.length) 0, 0) := by
  unfold find_optimal_target fot_body
  rw [get?_eq_some_getD ysm _ 0 (current_idx_lt xs pv ysm.length hm)]
  simp

lemma fot_isSome (xs ysm : List ℚ) (pv sr : ℚ) (rc : Recommendation)
    (hm : 0 < ysm.length) :
    ∃ t, find_optimal_target xs ysm pv rc sr = some t := by
  unfold find_optimal_target
  cases hb : fot_body xs ysm pv rc sr with
  | some r => exact ⟨r, rfl⟩
  | none =>
    unfold fot_handler
    rw [get?_eq_some_getD ysm _ 0 (current_idx_lt xs pv ysm.length hm)]
    exact ⟨_, rfl⟩

lemma window_min_facts (P : List (ℚ × ℚ)) (hne : P ≠ []) :
    ∃ k tv tr, P.get? k = some (tv, tr)
      ∧ (tv, tr) = P.getD (argmin_idx (P.map Prod.snd)) (0, 0)
      ∧ (∀ p ∈ P, tr ≤ p.2)
      ∧ (∀ j p, j < k → P.get? j = some p → tr < p.2) := by
  have hmapne : P.map Prod.snd ≠ [] := by
    simpa using hne
  have hkl : argmin_idx (P.map Prod.snd) < P.length := by
    have := argmin_idx_lt (P.map Prod.snd) hmapne
    simpa using this
  refine ⟨argmin_idx (P.map Prod.snd),
    (P.getD (argmin_idx (P.map Prod.snd)) (0, 0)).1,
    (P.getD (argmin_idx (P.map Prod.snd)) (0, 0)).2, ?_, ?_, ?_, ?_⟩
  · rw [get?_eq_some_getD P _ (0, 0) hkl]
  · rfl
  · intro p hp
    obtain ⟨i, hi, hpi⟩ := List.mem_iff_getElem.mp hp
    have hle := argmin_idx_le (P.map Prod.snd) i (by simpa using hi)
    rw [getD_map_snd P _ hkl, getD_map_snd P i hi] at hle
    rw [List.getD_eq_getElem P (0, 0) hi, hpi] at hle
    exact hle
  · intro j p hj hget
    have hjl : j < P.length := by
      by_contra hcon
      rw [List.get?_eq_none.mpr (by omega)] at hget
      exact Option.noConfusion hget
    have hlt := argmin_idx_first (P.map Prod.snd) j hj
    rw [getD_map_snd P _ hkl, getD_map_snd P j hjl] at hlt
    rw [get?_eq_some_getD P j (0, 0) hjl] at hget
    have hpj : P.getD j (0, 0) = p := by injection hget
    rw [hpj] at hlt
    exact hlt

lemma fot_decrease_char (xs ysm : List ℚ) (pv sr : ℚ)
    (hlen : xs.length = ysm.length) (hn : 0 < xs.length) :
    (window_pairs xs ysm (search_lo xs pv sr) pv = [] →
       find_optimal_target xs ysm pv .decrease sr
         = some (pv, ysm.getD (current_idx xs pv ysm.length) 0, 0))
    ∧ (window_pairs xs ysm (search_lo xs pv sr) pv ≠ [] →
       ∃ k tv tr,
         (window_pairs xs ysm (search_lo xs pv sr) pv).get? k = some (tv, tr)
         ∧ find_optimal_target xs ysm pv .decrease sr
             = some (tv, tr, ysm.getD (current_idx xs pv ysm.length) 0 - tr)
         ∧ (∀ p ∈ window_pairs xs ysm (search_lo xs pv sr) pv, tr ≤ p.2)
         ∧ (∀ j p, j < k →
             (window_pairs xs ysm (search_lo xs pv sr) pv).get? j = some p →
             tr < p.2)) := by
  have hm : 0 < ysm.length := hlen ▸ hn
  have hxs : xs ≠ [] := List.ne_nil_of_length_pos hn
  have hcur := get?_eq_some_getD ysm (current_idx xs pv ysm.length) 0
    (current_idx_lt xs pv ysm.length hm)
  unfold find_optimal_target fot_body
  rw [hcur, minQ?_eq xs hxs, maxQ?_eq xs hxs]
  simp only [Option.bind_eq_bind, Option.some_bind]
  rw [if_pos hlen,
    show max (minQ xs) (pv - (maxQ xs - minQ xs) * sr) = search_lo xs pv sr from rfl]
  constructor
  · intro hemp
    rw [hemp]
  · intro hne
    obtain ⟨k, tv, tr, hget, heq, hmin, hfirst⟩ :=
      window_min_facts (window_pairs xs ysm (search_lo xs pv sr) pv) hne
    refine ⟨k, tv, tr, hget, ?_, hmin, hfirst⟩
    rcases hP : window_pairs xs ysm (search_lo xs pv sr) pv with _ | ⟨p, ps⟩
    · exact absurd hP hne
    · rw [hP] at heq
      have h1 : tv = ((p :: ps).getD (argmin_idx ((p :: ps).map Prod.snd)) (0, 0)).1 :=
        congrArg Prod.fst heq
      have h2 : tr = ((p :: ps).getD (argmin_idx ((p :: ps).map Prod.snd)) (0, 0)).2 :=
        congrArg Prod.snd heq
      simp only [Option.pure_def]
      rw [← h1, ← h2]

lemma fot_increase_char (xs ysm : List ℚ) (pv sr : ℚ)
    (hlen : xs.length = ysm.length) (hn : 0 < xs.length) :
    (window_pairs xs ysm pv (search_hi xs pv sr) = [] →
       find_optimal_target xs ysm pv .increase sr
         = some (pv, ysm.getD (current_idx xs pv ysm.length) 0, 0))
    ∧ (window_pairs xs ysm pv (search_hi xs pv sr) ≠ [] →
       ∃ k tv tr,
         (window_pairs xs ysm pv (search_hi xs pv sr)).get? k = some (tv, tr)
         ∧ find_optimal_target xs ysm pv .increase sr
             = some (tv, tr, ysm.getD (current_idx xs pv ysm.length) 0 - tr)
         ∧ (∀ p ∈ window_pairs xs ysm pv (search_hi xs pv sr), tr ≤ p.2)
         ∧ (∀ j p, j < k →
             (window_pairs xs ysm pv (search_hi xs pv sr)).get? j = some p →
             tr < p.2)) := by
  have hm : 0 < ysm.length := hlen ▸ hn
  have hxs : xs ≠ [] := List.ne_nil_of_length_pos hn
  have hcur := get?_eq_some_getD ysm (current_idx xs pv ysm.length) 0
    (current_idx_lt xs pv ysm.length hm)
  unfold find_optimal_target fot_body
  rw [hcur, minQ?_eq xs hxs, maxQ?_eq xs hxs]
  simp only [Option.bind_eq_bind, Option.some_bind]
  rw [if_pos hlen,
    show min (maxQ xs) (pv + (maxQ xs - minQ xs) * sr) = search_hi xs pv sr from rfl]
  constructor
  · intro hemp
    rw [hemp]
  · intro hne
    obtain ⟨k, tv, tr, hget, heq, hmin, hfirst⟩ :=
      window_min_facts (window_pairs xs ysm pv (search_hi xs pv sr)) hne
    refine ⟨k, tv, tr, hget, ?_, hmin, hfirst⟩
    rcases hP : window_pairs xs ysm pv (search_hi xs pv sr) with _ | ⟨p, ps⟩
    · exact absurd hP hne
    · rw [hP] at heq
      have h1 : tv = ((p :: ps).getD (argmin_idx ((p :: ps).map Prod.snd)) (0, 0)).1 :=
        congrArg Prod.fst heq
      have h2 : tr = ((p :: ps).getD (argmin_idx ((p :: ps).map Prod.snd)) (0, 0)).2 :=
        congrArg Prod.snd heq
      simp only [Option.pure_def]
      rw [← h1, ← h2]

end FotLemmas

lemma window_pairs_subset_zip (xs ysm : List ℚ) (lo hi : ℚ) (p : ℚ × ℚ)
    (hp : p ∈ window_pairs xs ysm lo hi) : p ∈ xs.zip ysm :=
  (List.mem_filter.mp hp).1

lemma fot_target_mem (xs ysm : List ℚ) (pv sr : ℚ) (rc : Recommendation)
    (tv tr rr : ℚ)
    (h : find_optimal_target xs ysm pv rc sr = some (tv, tr, rr)) :
    tv = pv ∨ tv ∈ xs := by
  unfold find_optimal_target at h
  cases hb : fot_body xs ysm pv rc sr with
  | none =>
    rw [hb] at h
    unfold fot_handler at h
    cases hr : ysm.get? (current_idx xs pv ysm.length) with
    | none => rw [hr] at h; simp at h
    | some r =>
      rw [hr] at h
      simp only [Option.bind_eq_bind, Option.some_bind, Option.pure_def,
        Option.some.injEq, Prod.mk.injEq] at h
      exact Or.inl h.1.symm
  | some r =>
    rw [hb] at h
    simp only [Option.some.injEq] at h
    subst h
    unfold fot_body at hb
    cases rc with
    | maintain =>
      cases hr : ysm.get? (current_idx xs pv ysm.length) with
      | none => rw [hr] at hb; simp at hb
      | some r' =>
        rw [hr] at hb
        simp only [Option.bind_eq_bind, Option.some_bind, Option.pure_def,
          Option.some.injEq, Prod.mk.injEq] at hb
        exact Or.inl hb.1.symm
    | decrease =>
      cases hr : ysm.get? (current_idx xs pv ysm.length) with
      | none => rw [hr] at hb; simp at hb
      | some cur =>
        rw [hr] at hb
        cases hmin : minQ? xs with
        | none => rw [hmin] at hb; simp at hb
        | some xmin =>
          rw [hmin] at hb
          cases hmax : maxQ? xs with
          | none => rw [hmax] at hb; simp at hb
          | some xmax =>
            rw [hmax] at hb
            simp only [Option.bind_eq_bind, Option.some_bind] at hb
            by_cases hl : xs.length = ysm.length
            · rw [if_pos hl] at hb
              rcases hP : window_pairs xs ysm (max xmin (pv - (xmax - xmin) * sr)) pv
                  with _ | ⟨p, ps⟩
              · rw [hP] at hb
                simp only [Option.pure_def, Option.some.injEq, Prod.mk.injEq] at hb
                exact Or.inl hb.1.symm
              · rw [hP] at hb
                simp only [Option.pure_def, Option.some.injEq, Prod.mk.injEq] at hb
                have hkl : argmin_idx ((p :: ps).map Prod.snd) < (p :: ps).length := by
                  have := argmin_idx_lt ((p :: ps).map Prod.snd) (by simp)
                  simpa using this
                have htv : tv = ((p :: ps).getD (argmin_idx ((p :: ps).map Prod.snd)) (0, 0)).1 :=
                  hb.1.symm
                right
                rcases hX : (p :: ps).getD (argmin_idx ((p :: ps).map Prod.snd)) (0, 0)
                  with ⟨a, b⟩
                have hmem0 := getD_mem (p :: ps) (argmin_idx ((p :: ps).map Prod.snd)) (0, 0) hkl
                rw [hX] at hmem0
                have hzip : (a, b) ∈ xs.zip ysm :=
                  window_pairs_subset_zip xs ysm _ _ _ (by rw [hP]; exact hmem0)
                rw [htv, hX]
                exact (List.of_mem_zip hzip).1
            · rw [if_neg hl] at hb
              simp at hb
    | increase =>
      cases hr : ysm.get? (current_idx xs pv ysm.length) with
      | none => rw [hr] at hb; simp at hb
      | some cur =>
        rw [hr] at hb
        cases hmin : minQ? xs with
        | none => rw [hmin] at hb; simp at hb
        | some xmin =>
          rw [hmin] at hb
          cases hmax : maxQ? xs with
          | none => rw [hmax] at hb; simp at hb
          | some xmax =>
            rw [hmax] at hb
            simp only [Option.bind_eq_bind, Option.some_bind] at hb
            by_cases hl : xs.length = ysm.length
            · rw [if_pos hl] at hb
              rcases hP : window_pairs xs ysm pv (min xmax (pv + (xmax - xmin) * sr))
                  with _ | ⟨p, ps⟩
              · rw [hP] at hb
                simp only [Option.pure_def, Option.some.injEq, Prod.mk.injEq] at hb
                exact Or.inl hb.1.symm
              · rw [hP] at hb
                simp only [Option.pure_def, Option.some.injEq, Prod.mk.injEq] at hb
                have hkl : argmin_idx ((p :: ps).map Prod.snd) < (p :: ps).length := by
                  have := argmin_idx_lt ((p :: ps).map Prod.snd) (by simp)
                  simpa using this
                have htv : tv = ((p :: ps).getD (argmin_idx ((p :: ps).map Prod.snd)) (0, 0)).1 :=
                  hb.1.symm
                right
                rcases hX : (p :: ps).getD (argmin_idx ((p :: ps).map Prod.snd)) (0, 0)
                  with ⟨a, b⟩
                have hmem0 := getD_mem (p :: ps) (argmin_idx ((p :: ps).map Prod.snd)) (0, 0) hkl
                rw [hX] at hmem0
                have hzip : (a, b) ∈ xs.zip ysm :=
                  window_pairs_subset_zip xs ysm _ _ _ (by rw [hP]; exact hmem0)
                rw [htv, hX]
                exact (List.of_mem_zip hzip).1
            · rw [if_neg hl] at hb
              simp at hb

section ReportLemmas

lemma foldl_abs_add (l : List FeatureEntry) :
    ∀ c : ℚ, l.foldl (fun acc f => acc + |f.score|) c
      = c + (l.map (fun f => |f.score|)).sum := by
  induction l with
  | nil => intro c; simp
  | cons a t ih =>
    intro c
    simp only [List.foldl_cons, List.map_cons, List.sum_cons]
    rw [ih]
    ring

lemma sum_abs_eq (l : List FeatureEntry) :
    sum_abs l = (l.map (fun f => |f.score|)).sum := by
  unfold sum_abs
  rw [foldl_abs_add]
  ring

lemma mem_risk_features (l : List FeatureEntry) (f : FeatureEntry)
    (hf : f ∈ risk_features l) : f ∈ l ∧ 0 < f.score ∧ has_intercept f.name = false := by
  unfold risk_features at hf
  have h1 := List.mem_of_mem_take hf
  have h2 := List.mem_filter.mp h1
  have h3 : f ∈ sort_by_abs (remove_intercept l) := h2.1
  have hpos : 0 < f.score := by
    have := h2.2
    simpa using this
  have h4 : f ∈ remove_intercept l :=
    (List.perm_insertionSort abs_desc (remove_intercept l)).mem_iff.mp h3
  have h5 := List.mem_filter.mp h4
  refine ⟨h5.1, hpos, ?_⟩
  have := h5.2
  simpa using this

lemma sum_abs_pos (l : List FeatureEntry) (hpos : ∀ f ∈ l, 0 < f.score)
    (hne : l ≠ []) : 0 < sum_abs l := by
  rw [sum_abs_eq]
  cases l with
  | nil => exact absurd rfl hne
  | cons a t =>
    have ha : 0 < |a.score| := by
      have := hpos a (List.mem_cons_self a t)
      positivity
    have hnn : ∀ q ∈ (a :: t).map (fun f => |f.score|), 0 ≤ q := by
      intro q hq
      obtain ⟨g, hg, rfl⟩ := List.mem_map.mp hq
      positivity
    have hmem : |a.score| ∈ (a :: t).map (fun f => |f.score|) := by
      simp
    have := List.single_le_sum hnn _ hmem
    linarith

lemma risk_features_length (l : List FeatureEntry) :
    (risk_features l).length ≤ 3 := by
  unfold risk_features
  rw [List.length_take]
  omega

lemma total_effect_eq_sum (l : List FeatureEntry)
    (hne : risk_features l ≠ []) :
    total_effect (risk_features l) = sum_abs (risk_features l) := by
  unfold total_effect
  rw [if_neg]
  have := sum_abs_pos (risk_features l)
    (fun f hf => (mem_risk_features l f hf).2.1) hne
  exact ne_of_gt this

lemma risk_features_nil_of_nonpos (l : List FeatureEntry)
    (h : ∀ f ∈ l, f.score ≤ 0) : risk_features l = [] := by
  unfold risk_features
  have hfil : (sort_by_abs (remove_intercept l)).filter (fun f => decide (0 < f.score)) = [] := by
    rw [List.filter_eq_nil_iff]
    intro f hf
    have h4 : f ∈ remove_intercept l :=
      (List.perm_insertionSort abs_desc (remove_intercept l)).mem_iff.mp hf
    have h5 := (List.mem_filter.mp h4).1
    have := h f h5
    simp
    linarith
  rw [hfil]
  rfl

end ReportLemmas

section MoreLemmas

lemma sorted_x_sorted (x y : List ℚ) :
    List.Sorted (fun a b : ℚ => a ≤ b) (sorted_x x y) := by
  unfold sorted_x sort_pairs
  rw [List.Sorted, List.pairwise_map]
  exact List.sorted_insertionSort pair_le (x.zip y)

lemma grad_core_none (xs ysm : List ℚ) (pv : ℚ) (h1 : xs.length ≤ 1) :
    grad_core xs ysm pv = none := by
  unfold grad_core
  dsimp only
  have hmid : ¬ (0 < grad_idx xs pv ∧ grad_idx xs pv < xs.length - 1) := by
    rintro ⟨_, hlt⟩
    omega
  rw [if_neg hmid]
  by_cases h0 : grad_idx xs pv = 0
  · rw [if_pos h0, List.get?_eq_none.mpr (by omega : xs.length ≤ 1)]
    simp
  · rw [if_neg h0,
      List.get?_eq_none.mpr (by omega : xs.length ≤ grad_idx xs pv)]
    simp

end MoreLemmas

/-- Claim C3: for every pair of equal-length numeric sequences of length at
least 2, `calculate_local_gradient` sorts x ascending reordering y
identically, smooths y, and returns the gradient given by the clamped
insertion index and the central / forward / backward difference rule of
`spec_gradient`, with gradient 0 whenever the chosen denominator is 0 (the
forward branch is vacuous because the clamp makes the index at least 1). -/
theorem c3_gradient_formula (smooth : List ℚ → List ℚ)
    (hs : ∀ l, (smooth l).length = l.length) (x y : List ℚ) (pv : ℚ)
    (hlen : x.length = y.length) (h2 : 2 ≤ x.length) :
    (x.zip y).Perm (sort_pairs (x.zip y))
    ∧ List.Sorted (fun a b : ℚ => a ≤ b) (sorted_x x y)
    ∧ (calculate_local_gradient smooth x y pv).x_sorted = sorted_x x y
    ∧ (calculate_local_gradient smooth x y pv).y_smooth = smoothed_y smooth x y
    ∧ (calculate_local_gradient smooth x y pv).gradient
        = spec_gradient (sorted_x x y) (smoothed_y smooth x y) pv := by
  have hc := calculate_eq_of_wellformed smooth hs x y pv hlen h2
  exact ⟨(List.perm_insertionSort pair_le (x.zip y)).symm, sorted_x_sorted x y,
    by rw [hc], by rw [hc], by rw [hc]⟩

/-- Witness for C3 at the concrete curve x = [2, 1], y = [10, 20],
query 0, identity smoother. -/
theorem c3_gradient_formula_witness :
    ([(2:ℚ), 1].zip [10, 20]).Perm (sort_pairs ([(2:ℚ), 1].zip [10, 20]))
    ∧ List.Sorted (fun a b : ℚ => a ≤ b) (sorted_x [(2:ℚ), 1] [10, 20])
    ∧ (calculate_local_gradient id [(2:ℚ), 1] [10, 20] 0).x_sorted
        = sorted_x [(2:ℚ), 1] [10, 20]
    ∧ (calculate_local_gradient id [(2:ℚ), 1] [10, 20] 0).y_smooth
        = smoothed_y id [(2:ℚ), 1] [10, 20]
    ∧ (calculate_local_gradient id [(2:ℚ), 1] [10, 20] 0).gradient
        = spec_gradient (sorted_x [(2:ℚ), 1] [10, 20])
            (smoothed_y id [(2:ℚ), 1] [10, 20]) 0 :=
  c3_gradient_formula id (fun _ => rfl) [2, 1] [10, 20] 0 rfl (by decide)

/-- Claim C4: `find_optimal_target` on a sorted curve of equal lengths:
`'maintain'` returns `(query, y_smooth[current_idx], 0.0)` with no search;
`'decrease'` searches the sample points with x in
`[max(min x, query - 0.3*range), query]` (mirrored for `'increase'`),
returns the point of minimum y with ties broken by the first occurrence in
ascending-x order, and reports `risk_reduction = current_risk - target_risk`
unclamped; an empty window yields `(query, current_risk, 0.0)`. -/
theorem c4_target_search (xs ysm : List ℚ) (pv : ℚ)
    (_hsort : List.Sorted (fun a b : ℚ => a ≤ b) xs)
    (hlen : xs.length = ysm.length) (hn : 0 < xs.length) :
    find_optimal_target xs ysm pv .maintain (3/10)
        = some (pv, ysm.getD (current_idx xs pv ysm.length) 0, 0)
    ∧ (window_pairs xs ysm (search_lo xs pv (3/10)) pv = [] →
        find_optimal_target xs ysm pv .decrease (3/10)
          = some (pv, ysm.getD (current_idx xs pv ysm.length) 0, 0))
    ∧ (window_pairs xs ysm (search_lo xs pv (3/10)) pv ≠ [] →
        ∃ k tv tr,
          (window_pairs xs ysm (search_lo xs pv (3/10)) pv).get? k = some (tv, tr)
          ∧ find_optimal_target xs ysm pv .decrease (3/10)
              = some (tv, tr, ysm.getD (current_idx xs pv ysm.length) 0 - tr)
          ∧ (∀ p ∈ window_pairs xs ysm (search_lo xs pv (3/10)) pv, tr ≤ p.2)
          ∧ (∀ j p, j < k →
              (window_pairs xs ysm (search_lo xs pv (3/10)) pv).get? j = some p →
              tr < p.2))
    ∧ (window_pairs xs ysm pv (search_hi xs pv (3/10)) = [] →
        find_optimal_target xs ysm pv .increase (3/10)
          = some (pv, ysm.getD (current_idx xs pv ysm.length) 0, 0))
    ∧ (window_pairs xs ysm pv (search_hi xs pv (3/10)) ≠ [] →
        ∃ k tv tr,
          (window_pairs xs ysm pv (search_hi xs pv (3/10))).get? k = some (tv, tr)
          ∧ find_optimal_target xs ysm pv .increase (3/10)
              = some (tv, tr, ysm.getD (current_idx xs pv ysm.length) 0 - tr)
          ∧ (∀ p ∈ window_pairs xs ysm pv (search_hi xs pv (3/10)), tr ≤ p.2)
          ∧ (∀ j p, j < k →
              (window_pairs xs ysm pv (search_hi xs pv (3/10))).get? j = some p →
              tr < p.2)) :=
  ⟨fot_maintain xs ysm pv (3/10) (hlen ▸ hn),
   (fot_decrease_char xs ysm pv (3/10) hlen hn).1,
   (fot_decrease_char xs ysm pv (3/10) hlen hn).2,
   (fot_increase_char xs ysm pv (3/10) hlen hn).1,
   (fot_increase_char xs ysm pv (3/10) hlen hn).2⟩

/-- Witness for C4: the maintain branch on the concrete sorted curve
x = [0, 1], y = [5, 7] at query 1/2. -/
theorem c4_target_search_witness :
    find_optimal_target [(0:ℚ), 1] [5, 7] (1/2) .maintain (3/10)
      = some (1/2, 7, 0) := by
  have h := (c4_target_search [(0:ℚ), 1] [5, 7] (1/2)
    (by norm_num [List.sorted_cons]) rfl (by decide)).1
  refine h.trans ?_
  norm_num [current_idx, countLt, List.countP, List.countP.go]

/-- Counterexample to claim C2 as stated: on the sorted curve
x = [0, 1], y = [0, 0] (equal lengths ≥ 2), with query 5 and
recommendation `'decrease'`, the search window is empty and
`find_optimal_target` returns target_value 5, which lies outside
[min x, max x] = [0, 1]. -/
theorem c2_counterexample :
    find_optimal_target [(0:ℚ), 1] [0, 0] 5 .decrease (3/10) = some (5, 0, 0)
    ∧ ¬ ((5:ℚ) ≤ maxQ [(0:ℚ), 1]) := by
  constructor
  · norm_num [find_optimal_target, fot_body, fot_handler, current_idx, countLt,
      window_pairs, search_lo, search_hi, minQ?, maxQ?, minQ, maxQ, argmin_idx,
      List.countP, List.countP.go, List.filter]
  · norm_num [maxQ, max_def]

/-- Claim C2 amended: whenever the query value itself lies inside
[min x_sorted, max x_sorted], every target_value that
`find_optimal_target` returns lies inside [min x_sorted, max x_sorted]
(in general the returned target is either the query value itself or one of
the sample points, so a query outside the range is returned unchanged, as
the counterexample shows). -/
theorem c2_target_in_range (xs ysm : List ℚ) (pv sr : ℚ)
    (rc : Recommendation) (tv tr rr : ℚ)
    (_hlen : xs.length = ysm.length) (_h2 : 2 ≤ xs.length)
    (hlo : minQ xs ≤ pv) (hhi : pv ≤ maxQ xs)
    (h : find_optimal_target xs ysm pv rc sr = some (tv, tr, rr)) :
    minQ xs ≤ tv ∧ tv ≤ maxQ xs := by
  rcases fot_target_mem xs ysm pv sr rc tv tr rr h with hpv | hmem
  · subst hpv
    exact ⟨hlo, hhi⟩
  · exact ⟨minQ_le_of_mem hmem, le_maxQ_of_mem hmem⟩

/-- Witness for the amended C2 at the concrete curve x = [0, 1],
y = [5, 7], query 1/2, recommendation `'decrease'`. -/
theorem c2_target_in_range_witness :
    minQ [(0:ℚ), 1] ≤ 1/2 ∧ (1/2 : ℚ) ≤ maxQ [(0:ℚ), 1] :=
  c2_target_in_range [(0:ℚ), 1] [5, 7] (1/2) (3/10) .decrease (1/2) 7 0 rfl
    (by decide) (by norm_num [minQ, min_def]) (by norm_num [maxQ, max_def])
    (by norm_num [find_optimal_target, fot_body, fot_handler, current_idx,
      countLt, window_pairs, search_lo, search_hi, minQ?, maxQ?, minQ, maxQ,
      argmin_idx, List.countP, List.countP.go, List.filter])

/-- Counterexample to claim C5 as stated: for x_sorted = [0, 1, 2] and a
query at the minimum sample (insertion index 0), the gradient index rule
clamps 0 to 1 while `find_optimal_target`'s current-risk rule keeps 0, so
the two index computations differ and the maintain branch reads
y_smooth[0] = 10 where the gradient rule selects index 1 (y = 20). -/
theorem c5_counterexample :
    grad_idx [(0:ℚ), 1, 2] 0 = 1
    ∧ current_idx [(0:ℚ), 1, 2] 0 3 = 0
    ∧ find_optimal_target [(0:ℚ), 1, 2] [10, 20, 30] 0 .maintain (3/10)
        = some (0, 10, 0)
    ∧ ([10, 20, 30] : List ℚ).getD (grad_idx [(0:ℚ), 1, 2] 0) 0 = 20 := by
  refine ⟨?_, ?_, ?_, ?_⟩
  · norm_num [grad_idx, countLt, List.countP, List.countP.go]
  · norm_num [current_idx, countLt, List.countP, List.countP.go]
  · norm_num [find_optimal_target, fot_body, fot_handler, current_idx, countLt,
      List.countP, List.countP.go]
  · norm_num [grad_idx, countLt, List.countP, List.countP.go]

/-- Claim C5 amended: the index at which `find_optimal_target` reads
current_risk agrees with `calculate_local_gradient`'s clamped insertion
index whenever the insertion index is at least 1, i.e. whenever the query
is strictly above the minimum sample; for a query at or below the minimum
the gradient rule selects index 1 while `find_optimal_target` selects 0. -/
theorem c5_index_rules_agree (xs : List ℚ) (pv : ℚ)
    (h1 : 1 ≤ countLt xs pv) :
    grad_idx xs pv = current_idx xs pv xs.length := by
  unfold grad_idx current_idx
  dsimp only
  rw [if_neg (by omega : ¬ countLt xs pv = 0)]

/-- Witness for the amended C5 at x_sorted = [0, 1, 2], query 3/2. -/
theorem c5_index_rules_agree_witness :
    grad_idx [(0:ℚ), 1, 2] (3/2) = current_idx [(0:ℚ), 1, 2] (3/2) 3 :=
  c5_index_rules_agree [(0:ℚ), 1, 2] (3/2)
    (by norm_num [countLt, List.countP, List.countP.go])

/-- Counterexample to claim C6 as stated: the mismatched input
x = [0, 1], y = [3, 3, 99] does not hit the fallback: numpy fancy-indexing
silently drops the surplus y entries, so the function returns the
truncated, processed pair (y_smooth = [3, 3]) instead of the original y. -/
theorem c6_counterexample :
    calculate_local_gradient id [(0:ℚ), 1] [3, 3, 99] 2
      = ⟨0, .maintain, [3, 3], [0, 1]⟩
    ∧ (calculate_local_gradient id [(0:ℚ), 1] [3, 3, 99] 2).y_smooth
        ≠ [3, 3, 99] := by
  have h : calculate_local_gradient id [(0:ℚ), 1] [3, 3, 99] 2
      = ⟨0, .maintain, [3, 3], [0, 1]⟩ := by
    norm_num [calculate_local_gradient, grad_body, grad_core, grad_idx, countLt,
      sorted_x, smoothed_y, sort_pairs, List.insertionSort, List.orderedInsert,
      pair_le, diffQ, classify, List.countP, List.countP.go]
  refine ⟨h, ?_⟩
  rw [h]
  simp

/-- Claim C6 amended: the degraded fallback (gradient 0, `'maintain'`, the
original unsorted and unsmoothed y and x) is returned whenever the input
sequences have length < 2 or y is shorter than x; when y is strictly longer
than x (the other mismatched case) the function instead silently computes a
normal result on x zipped with the first `x.length` entries of y. -/
theorem c6_malformed_fallback (smooth : List ℚ → List ℚ) (x y : List ℚ)
    (pv : ℚ) (h : x.length < 2 ∨ y.length < x.length) :
    calculate_local_gradient smooth x y pv = ⟨0, .maintain, y, x⟩ := by
  unfold calculate_local_gradient
  have hb : grad_body smooth x y pv = none := by
    unfold grad_body
    rcases h with hx2 | hyx
    · by_cases hle : x.length ≤ y.length
      · rw [if_pos hle]
        apply grad_core_none
        rw [sorted_x_length]
        omega
      · rw [if_neg hle]
    · rw [if_neg (by omega)]
  rw [hb]

/-- Witness for the amended C6: a single-element x with an empty y falls
back to the original arrays. -/
theorem c6_malformed_fallback_witness :
    calculate_local_gradient id [(5:ℚ)] [] 0 = ⟨0, .maintain, [], [5]⟩ :=
  c6_malformed_fallback id [5] [] 0 (Or.inl (by decide))

/-- Claim C1: when the patient value lies outside the inclusive percentile
window of the trace's x-samples, the global-explanation branch produces
only the out-of-range advisory (a constructor carrying the patient value
and its curve height, with no target_value and no risk_reduction field);
a value exactly at the lower or upper percentile bound counts as inside,
so the gradient analysis and target search run and produce the advice
outcome. -/
theorem c1_percentile_gating (smooth : List ℚ → List ℚ)
    (hs : ∀ l, (smooth l).length = l.length) (x y : List ℚ) (pv lp up : ℚ)
    (hlen : x.length = y.length) (hn : 0 < x.length)
    (hwin : np_percentile x lp ≤ np_percentile x up) :
    (¬ (np_percentile x lp ≤ pv ∧ pv ≤ np_percentile x up) →
       ∃ py, global_explanation_outcome smooth x y pv lp up
         = .outOfRange pv py)
    ∧ ((pv = np_percentile x lp ∨ pv = np_percentile x up) →
       ∃ g r py tv tr rr, global_explanation_outcome smooth x y pv lp up
         = .advice g r py tv tr rr) := by
  have hy : (calculate_local_gradient smooth x y pv).y_smooth.length
      = x.length := calc_y_smooth_length smooth hs x y pv hlen
  have hym : 0 < (calculate_local_gradient smooth x y pv).y_smooth.length := by
    omega
  have hget := get?_eq_some_getD (calculate_local_gradient smooth x y pv).y_smooth
    (current_idx (sort_list x) pv
      (calculate_local_gradient smooth x y pv).y_smooth.length) 0
    (current_idx_lt _ _ _ hym)
  constructor
  · intro hout
    simp only [global_explanation_outcome]
    rw [if_neg hout, hget]
    exact ⟨_, rfl⟩
  · intro hb
    have hin : np_percentile x lp ≤ pv ∧ pv ≤ np_percentile x up := by
      rcases hb with h | h
      · exact ⟨le_of_eq h.symm, h ▸ hwin⟩
      · exact ⟨h ▸ hwin, le_of_eq h⟩
    simp only [global_explanation_outcome]
    rw [if_pos hin]
    obtain ⟨t, ht⟩ := fot_isSome (calculate_local_gradient smooth x y pv).x_sorted
      (calculate_local_gradient smooth x y pv).y_smooth pv (3/10)
      (calculate_local_gradient smooth x y pv).recommendation hym
    rcases t with ⟨tv, tr, rr⟩
    rw [ht, hget]
    exact ⟨_, _, _, _, _, _, rfl⟩

/-- Witness for C1 on the trace x = [0, 1, 2, 3], y = [0, 0, 0, 0] with the
0th and 100th percentiles (window [0, 3]): the query 5 is suppressed into
the out-of-range advisory, while the boundary query 0 runs the search. -/
theorem c1_percentile_gating_witness :
    (∃ py, global_explanation_outcome id [(0:ℚ), 1, 2, 3] [0, 0, 0, 0] 5 0 100
        = .outOfRange 5 py)
    ∧ (∃ g r py tv tr rr,
        global_explanation_outcome id [(0:ℚ), 1, 2, 3] [0, 0, 0, 0] 0 0 100
          = .advice g r py tv tr rr) := by
  constructor
  · exact (c1_percentile_gating id (fun _ => rfl) [0, 1, 2, 3] [0, 0, 0, 0]
      5 0 100 rfl (by decide)
      (by norm_num [np_percentile, sort_list, List.insertionSort,
        List.orderedInsert, Int.toNat])).1
      (by norm_num [np_percentile, sort_list, List.insertionSort,
        List.orderedInsert, Int.toNat])
  · exact (c1_percentile_gating id (fun _ => rfl) [0, 1, 2, 3] [0, 0, 0, 0]
      0 0 100 rfl (by decide)
      (by norm_num [np_percentile, sort_list, List.insertionSort,
        List.orderedInsert, Int.toNat])).2
      (Or.inl (by norm_num [np_percentile, sort_list, List.insertionSort,
        List.orderedInsert, Int.toNat]))

/-- Claim C7: the report path excludes every feature whose name contains
`'intercept'` case-insensitively, ranks the rest by |score| descending,
keeps at most three features, all with strictly positive score, and gives
each kept feature the contribution ratio `round(|score| / sum |score|, 3)`
over the kept set; on the example scores [0.5, -0.3, 0.2, 0.05] the kept
scores are [0.5, 0.2, 0.05], the total is 0.75 and the ratio of the 0.5
feature is 0.667. -/
theorem c7_report_ranking (l : List FeatureEntry) :
    List.Sorted abs_desc (sort_by_abs (remove_intercept l))
    ∧ (∀ f ∈ risk_features l, 0 < f.score ∧ has_intercept f.name = false)
    ∧ (risk_features l).length ≤ 3
    ∧ (∀ f ∈ risk_features l,
        (f.name, f.value, f.score,
         py_round (|f.score| / sum_abs (risk_features l)) 3,
         py_round (|f.score| / sum_abs (risk_features l) * 100) 1)
          ∈ top_risk_features l)
    ∧ ((risk_features
          [⟨"a", 1/2, 0⟩, ⟨"b", -(3/10), 0⟩, ⟨"c", 1/5, 0⟩, ⟨"d", 1/20, 0⟩]).map
            FeatureEntry.score = [1/2, 1/5, 1/20]
        ∧ sum_abs (risk_features
            [⟨"a", 1/2, 0⟩, ⟨"b", -(3/10), 0⟩, ⟨"c", 1/5, 0⟩, ⟨"d", 1/20, 0⟩])
            = 3/4
        ∧ py_round ((1/2 : ℚ) / sum_abs (risk_features
            [⟨"a", 1/2, 0⟩, ⟨"b", -(3/10), 0⟩, ⟨"c", 1/5, 0⟩, ⟨"d", 1/20, 0⟩])) 3
            = 667/1000) := by
  refine ⟨List.sorted_insertionSort abs_desc (remove_intercept l),
    fun f hf => (mem_risk_features l f hf).2, risk_features_length l, ?_, ?_⟩
  · intro f hf
    have hne : risk_features l ≠ [] := List.ne_nil_of_mem hf
    have hte := total_effect_eq_sum l hne
    have hmem := List.mem_map_of_mem
      (fun g => (g.name, g.value, g.score,
        py_round (|g.score| / total_effect (risk_features l)) 3,
        py_round (|g.score| / total_effect (risk_features l) * 100) 1)) hf
    rw [← hte]
    simpa only [top_risk_features] using hmem
  · refine ⟨?_, ?_, ?_⟩
    · norm_num [risk_features, sort_by_abs, remove_intercept, has_intercept,
        contains_sub, List.insertionSort, List.orderedInsert, abs_desc,
        List.filter, abs_eq_max_neg, max_def]
    · norm_num [risk_features, sort_by_abs, remove_intercept, has_intercept,
        contains_sub, List.insertionSort, List.orderedInsert, abs_desc,
        List.filter, sum_abs, abs_eq_max_neg, max_def]
    · have hsum : sum_abs (risk_features
          [⟨"a", 1/2, 0⟩, ⟨"b", -(3/10), 0⟩, ⟨"c", 1/5, 0⟩, ⟨"d", 1/20, 0⟩])
          = 3/4 := by
        norm_num [risk_features, sort_by_abs, remove_intercept, has_intercept,
          contains_sub, List.insertionSort, List.orderedInsert, abs_desc,
          List.filter, sum_abs, abs_eq_max_neg, max_def]
      rw [hsum]
      norm_num [py_round, round_half_even]

/-- Witness for C7: the top-ranked feature of the example report has a
strictly positive score and an intercept-free name. -/
theorem c7_report_ranking_witness :
    0 < (⟨"a", (1/2 : ℚ), 0⟩ : FeatureEntry).score
    ∧ has_intercept (⟨"a", (1/2 : ℚ), 0⟩ : FeatureEntry).name = false := by
  refine (c7_report_ranking
    [⟨"a", 1/2, 0⟩, ⟨"b", -(3/10), 0⟩, ⟨"c", 1/5, 0⟩, ⟨"d", 1/20, 0⟩]).2.1
    ⟨"a", 1/2, 0⟩ ?_
  norm_num [risk_features, sort_by_abs, remove_intercept, has_intercept,
    contains_sub, List.insertionSort, List.orderedInsert, abs_desc,
    List.filter, abs_eq_max_neg, max_def]

/-- Claim C10: the contribution-ratio divisor is total and strictly
positive: it equals the sum of |score| over the selected risk features,
replaced by 1.0 when that sum is zero; when the selection is nonempty the
sum itself is strictly positive, and a patient with no positive-score
feature gets an empty selection and an empty top_risk_features list. -/
theorem c10_divisor_total (l : List FeatureEntry) :
    0 < total_effect (risk_features l)
    ∧ (risk_features l ≠ [] →
        total_effect (risk_features l) = sum_abs (risk_features l)
        ∧ 0 < sum_abs (risk_features l))
    ∧ ((∀ f ∈ l, f.score ≤ 0) →
        risk_features l = [] ∧ top_risk_features l = []) := by
  have hpos : ∀ hne : risk_features l ≠ [], 0 < sum_abs (risk_features l) :=
    fun hne => sum_abs_pos _ (fun f hf => (mem_risk_features l f hf).2.1) hne
  refine ⟨?_, fun hne => ⟨total_effect_eq_sum l hne, hpos hne⟩, ?_⟩
  · by_cases hne : risk_features l = []
    · unfold total_effect
      rw [hne]
      norm_num [sum_abs]
    · rw [total_effect_eq_sum l hne]
      exact hpos hne
  · intro h
    have hnil := risk_features_nil_of_nonpos l h
    refine ⟨hnil, ?_⟩
    simp only [top_risk_features, hnil, List.map_nil]

/-- Witness for C10: a patient whose only feature has a negative score gets
an empty selection and an empty report list. -/
theorem c10_divisor_total_witness :
    risk_features [⟨"x", -(1:ℚ), 0⟩] = []
    ∧ top_risk_features [⟨"x", -(1:ℚ), 0⟩] = [] :=
  (c10_divisor_total [⟨"x", -(1:ℚ), 0⟩]).2.2
    (by norm_num)

/-- Counterexample to claim C8 as stated: `get_patient_row` on a store
without the requested ID does not return a structured result — it raises a
`ValueError` to its caller (modelled by `Except.error`), so the
"never raises" part of the claim fails for this lookup. -/
theorem c8_counterexample :
    get_patient_row ⟨[], true⟩ "7"
        = Except.error ("patient ID not found: " ++ "7")
    ∧ ¬ ∃ r, get_patient_row ⟨[], true⟩ "7" = Except.ok r := by
  constructor
  · rfl
  · rintro ⟨r, hr⟩
    rw [show get_patient_row ⟨[], true⟩ "7"
        = Except.error ("patient ID not found: " ++ "7") from rfl] at hr
    exact Except.noConfusion hr

/-- Claim C8 amended: for an absent patient ID,
`get_local_explanation_html` returns the structured not-found page leaving
the cursor untouched and `generate_patient_report` returns the structured
error dictionary, neither raising; `get_patient_row`, however, reports the
missing ID by raising a `ValueError` to its caller rather than returning a
structured result. -/
theorem c8_not_found (d : DataStore)
    (explain_local : PatientRow → List FeatureEntry) (st : CursorState)
    (pid mode : String) (habs : ∀ r ∈ d.rows, r.pid ≠ pid) :
    (get_local_explanation d explain_local st pid mode).1 = .notFound
    ∧ (get_local_explanation d explain_local st pid mode).2 = st
    ∧ generate_patient_report d explain_local pid
        = .error ("patient not found: " ++ pid)
    ∧ get_patient_row d pid = .error ("patient ID not found: " ++ pid) := by
  have hnil : d.rows.filter (fun r => r.pid == pid) = [] := by
    rw [List.filter_eq_nil_iff]
    intro r hr
    simpa using habs r hr
  refine ⟨?_, ?_, ?_, ?_⟩ <;>
    simp only [get_local_explanation, generate_patient_report,
      get_patient_row, hnil]

/-- Witness for the amended C8: a one-row store queried with a different
ID. -/
theorem c8_not_found_witness :
    get_patient_row ⟨[⟨"a", 0, []⟩], false⟩ "b"
      = Except.error ("patient ID not found: " ++ "b") :=
  (c8_not_found ⟨[⟨"a", 0, []⟩], false⟩ (fun _ => []) ⟨none, []⟩ "b" "all"
    (by intro r hr; simp at hr; rw [hr]; decide)).2.2.2

/-- Claim C9: one run of the gradient-and-target pipeline is a pure
function of its curve and query arguments; it neither reads nor writes the
current-patient cursor, so rerunning it after an interleaved
local-explanation call for a different patient (which overwrites the
cursor) produces the identical output. -/
theorem c9_pipeline_idempotent (smooth : List ℚ → List ℚ) (d : DataStore)
    (explain_local : PatientRow → List FeatureEntry) (st : CursorState)
    (x y : List ℚ) (pv : ℚ) (pid2 mode : String) :
    (pipeline_step smooth st x y pv).1 =
      (pipeline_step smooth
        (get_local_explanation d explain_local
          (pipeline_step smooth st x y pv).2 pid2 mode).2 x y pv).1 := rfl
